import Mathlib

/-!
Verification of the 433 MHz OOK pulse codec (transmitter + receiver).

The definitions below are a shallow embedding of `src/models/transmitter.py`
and `src/models/receiver.py`:

* `Protocol`, `TX_PROTOCOLS`, `RX_PROTOCOLS` embed the two `PROTOCOLS` tuples
  (they differ only in the protocol-1 pulse length: 3500 vs 350).
* `pyIndex` embeds Python tuple subscripting (negative indices alias from the
  end; an out-of-range subscript raises `IndexError`, modelled as `none`).
* `processTick` embeds one iteration of `Receiver._process_stream_ticks`:
  the edge-timestamp update, the noise filter, the sync-gap commit and the
  two data-bit conditionals, exactly in source order.  Timestamps are in
  nanoseconds (`tick.time`), all `/ 1000` conversions to microseconds are
  kept and carried out in `ℚ` (the Python code uses float division; the
  idealized timelines considered here stay away from float rounding).
* `transmit_code_pairs` embeds `Transmitter.transmit_code`/`transmit_binary`:
  the `format(code, f'#0{tx_length+2}b')[2:]` binary formatting (`pyFormatBin`)
  and the pulse-pair sequence produced by `transmit_0/1/sync` (durations in
  microseconds, `multiplier * pulselength`).
* `pairsToTicks` turns a pulse-pair sequence into the idealized, jitter-free
  edge-event timeline (rising edge, falling edge after the high hold).
* `transmit_waveform_actions`/`pinAfter` embed the pin-action trace of
  `Transmitter.transmit_waveform`; cancellation at point `k` is modelled by
  executing the first `k` actions of the trace.
* `do_command_model` embeds `Transmitter.do_command`'s handling of the
  `"code"` entry (Python truthiness).
-/

/-- The `Protocol` namedtuple of both source files. -/
structure Protocol where
  pulselength : Nat
  sync_high : Nat
  sync_low : Nat
  zero_high : Nat
  zero_low : Nat
  one_high : Nat
  one_low : Nat
deriving Repr, DecidableEq

/-- `PROTOCOLS` of `transmitter.py` (index 0 is the `None` entry). -/
def TX_PROTOCOLS : List (Option Protocol) :=
  [none,
   some ⟨3500, 1, 31, 1, 3, 3, 1⟩,
   some ⟨650, 1, 10, 1, 2, 2, 1⟩,
   some ⟨100, 30, 71, 4, 11, 9, 6⟩,
   some ⟨380, 1, 6, 1, 3, 3, 1⟩,
   some ⟨500, 6, 14, 1, 2, 2, 1⟩,
   some ⟨200, 1, 10, 1, 5, 1, 1⟩]

/-- `PROTOCOLS` of `receiver.py` (index 0 is the `None` entry; protocol 1 has
pulse length 350 here, 3500 on the transmitter side). -/
def RX_PROTOCOLS : List (Option Protocol) :=
  [none,
   some ⟨350, 1, 31, 1, 3, 3, 1⟩,
   some ⟨650, 1, 10, 1, 2, 2, 1⟩,
   some ⟨100, 30, 71, 4, 11, 9, 6⟩,
   some ⟨380, 1, 6, 1, 3, 3, 1⟩,
   some ⟨500, 6, 14, 1, 2, 2, 1⟩,
   some ⟨200, 1, 10, 1, 5, 1, 1⟩]

/-- Python sequence subscripting `l[i]`: a negative index aliases from the
end; an index out of range raises `IndexError`, modelled as `none`. -/
def pyIndex {α : Type} (l : List α) (i : Int) : Option α :=
  if 0 ≤ i then l[i.toNat]?
  else if 0 ≤ (l.length : Int) + i then l[((l.length : Int) + i).toNat]?
  else none

/-- One element of the receiver's edge-event stream (`tick`): a monotonic
timestamp in nanoseconds and the level after the edge. -/
structure Tick where
  time : Int
  high : Bool
deriving Repr, DecidableEq

/-- The mutable state of `Receiver._process_stream_ticks` together with the
externally visible `rx_code`/`rx_code_timestamp` fields of the receiver. -/
structure RxState where
  rising_edge_ts : Int
  falling_edge_ts : Int
  last_pulse_start_ts : Int
  last_pulse_end_ts : Int
  code : Nat
  rx_code : Nat
  rx_code_timestamp : Option Int
deriving Repr, DecidableEq

/-- The state at the top of `_process_stream_ticks` (all timestamp markers
hold the sentinel `-1`; `rx_code = 0`, `rx_code_timestamp = None` are the
class-level defaults). -/
def initRxState : RxState := ⟨-1, -1, -1, -1, 0, 0, none⟩

/-- One iteration of the `async for tick ...` loop of
`Receiver._process_stream_ticks` (receiver.py lines 140-187), for a decoder
configured with `rx_pulselength = pl` (microseconds) and `rx_tolerance = tol`. -/
def processTick (pl tol : ℚ) (s : RxState) (t : Tick) : RxState :=
  let s1 := if t.high then { s with rising_edge_ts := t.time }
            else { s with falling_edge_ts := t.time }
  if s1.falling_edge_ts > s1.rising_edge_ts then
    let high_duration : Int := s1.falling_edge_ts - s1.rising_edge_ts
    let high_duration_us : ℚ := (high_duration : ℚ) / 1000
    if high_duration_us < pl * tol then
      { s1 with rising_edge_ts := -1, falling_edge_ts := -1 }
    else
      let distance_from_last_pulse_end_us : ℚ :=
        ((s1.rising_edge_ts - s1.last_pulse_end_ts : Int) : ℚ) / 1000
      let s2 :=
        if s1.last_pulse_end_ts ≠ -1 then
          if distance_from_last_pulse_end_us > 6 * pl then
            { s1 with rx_code := s1.code,
                      rx_code_timestamp := some s1.last_pulse_end_ts,
                      code := 0 }
          else
            let last_pulse_duration_us : ℚ :=
              ((s1.last_pulse_end_ts - s1.last_pulse_start_ts : Int) : ℚ) / 1000
            let s3 :=
              if last_pulse_duration_us < 2 * pl ∧
                 distance_from_last_pulse_end_us > 2 * pl then
                { s1 with code := s1.code <<< 1 }
              else s1
            let s4 :=
              if last_pulse_duration_us > 2 * pl ∧
                 distance_from_last_pulse_end_us < 2 * pl then
                { s3 with code := (s3.code <<< 1) ||| 1 }
              else s3
            s4
        else s1
      { s2 with last_pulse_start_ts := s1.rising_edge_ts,
                last_pulse_end_ts := s1.falling_edge_ts }
  else s1

/-- Folding the decoder loop over a finite edge-event timeline. -/
def processTicks (pl tol : ℚ) (s : RxState) (ts : List Tick) : RxState :=
  ts.foldl (processTick pl tol) s

/-- MSB-first binary digits, structurally recursive on a fuel argument
(`c` halvings always terminate within `c` steps). -/
def natBitsAux : Nat → Nat → List Bool
  | 0, _ => []
  | _ + 1, 0 => []
  | fuel + 1, c + 1 => natBitsAux fuel ((c + 1) / 2) ++ [decide ((c + 1) % 2 = 1)]

/-- MSB-first binary digits of a natural number (`[]` for 0); building block
of Python's `format(c, 'b')`. -/
def natBits (c : Nat) : List Bool := natBitsAux c c

/-- Python's `format(c, 'b')`: the digit string of `c` (`"0"` for 0). -/
def pyBits (c : Nat) : List Bool :=
  if c = 0 then [false] else natBits c

/-- `format(code, f'#0{n+2}b')[2:]`: the digits of `code`, zero-padded on the
left to width `n` (never truncated — a wider code keeps all its digits). -/
def pyFormatBin (c n : Nat) : List Bool :=
  List.replicate (n - (pyBits c).length) false ++ pyBits c

/-- The `(high, low)` microsecond durations emitted by
`transmit_0`/`transmit_1` for one bit: `multiplier * pulselength`. -/
def bitPair (p : Protocol) (b : Bool) : Nat × Nat :=
  if b then (p.one_high * p.pulselength, p.one_low * p.pulselength)
  else (p.zero_high * p.pulselength, p.zero_low * p.pulselength)

/-- The `(high, low)` microsecond durations emitted by `transmit_sync`. -/
def syncPair (p : Protocol) : Nat × Nat :=
  (p.sync_high * p.pulselength, p.sync_low * p.pulselength)

/-- `Transmitter.transmit_binary`: `txRepeat` repetitions of the first
`txLength` characters of `raw` (one pulse pair per bit) followed by a sync
pulse pair. -/
def transmit_binary_pairs (p : Protocol) (raw : List Bool)
    (txLength txRepeat : Nat) : List (Nat × Nat) :=
  (List.replicate txRepeat
    ((raw.take txLength).map (bitPair p) ++ [syncPair p])).flatten

/-- `Transmitter.transmit_code`: format the code to (at least) `txLength`
binary digits, then transmit them. -/
def transmit_code_pairs (p : Protocol) (c : Nat)
    (txLength txRepeat : Nat) : List (Nat × Nat) :=
  transmit_binary_pairs p (pyFormatBin c txLength) txLength txRepeat

/-- The idealized, jitter-free edge-event timeline of a pulse-pair sequence:
a rising edge at the pair's start, a falling edge after the high hold, the
next pair after the low hold.  Pair durations are microseconds, tick
timestamps nanoseconds. -/
def pairsToTicks (t0 : Int) : List (Nat × Nat) → List Tick
  | [] => []
  | (h, l) :: rest =>
      ⟨t0, true⟩ :: ⟨t0 + 1000 * (h : Int), false⟩ ::
        pairsToTicks (t0 + 1000 * (h : Int) + 1000 * (l : Int)) rest

/-- One pin-level action of `Transmitter.transmit_waveform`. -/
inductive PinAction where
  | setPin (level : Bool)
  | sleep (seconds : ℚ)
deriving Repr, DecidableEq

/-- The action trace of `transmit_waveform(highpulses, lowpulses)`:
set high, hold, set low, hold (hold durations in seconds). -/
def transmit_waveform_actions (highpulses lowpulses pulselength : Nat) :
    List PinAction :=
  [PinAction.setPin true,
   PinAction.sleep (((highpulses * pulselength : Nat) : ℚ) / 1000000),
   PinAction.setPin false,
   PinAction.sleep (((lowpulses * pulselength : Nat) : ℚ) / 1000000)]

/-- The pin level after executing a trace of actions, starting low. -/
def pinAfter (acts : List PinAction) : Bool :=
  acts.foldl (fun p a => match a with
    | PinAction.setPin l => l
    | PinAction.sleep _ => p) false

/-- Python truthiness of `command.get("code")` in `Transmitter.do_command`:
an absent key yields `None` (falsy); an integer is truthy iff nonzero. -/
def codeTruthy : Option Int → Bool
  | none => false
  | some c => c != 0

/-- The observable outcome of `Transmitter.do_command`. -/
structure DoCommandResult where
  success : Bool
  error : Option String
  transmitted : Bool
deriving Repr, DecidableEq

/-- `Transmitter.do_command`: transmit iff the `"code"` entry is truthy,
otherwise return the failure mapping without touching the pin. -/
def do_command_model (code : Option Int) : DoCommandResult :=
  if codeTruthy code then ⟨true, none, true⟩
  else ⟨false, some "code is required", false⟩

/-- The multiplier shape of protocol 1 — `(sync (1,31), zero (1,3), one (3,1))`
— with a parametric pulse unit (350 in the receiver table, 3500 in the
transmitter table). -/
def proto1 (pl : Nat) : Protocol := ⟨pl, 1, 31, 1, 3, 3, 1⟩

/-- The decoder state between two pulses of a clean pulse train: the edge
markers and the previous-pulse markers both hold the last pulse's start and
end. -/
def trainState (sS sE : Int) (acc rx : Nat) (ts : Option Int) : RxState :=
  ⟨sS, sE, sS, sE, acc, rx, ts⟩

/-- Symbol-level summary of one decode step on a clean train: given the
previous pulse's high duration and following gap (microseconds), update the
(accumulated code, rx_code) pair the way `processTick` does. -/
def symStep (pl : ℚ) (st : Nat × Nat) (q : Nat × Nat) : Nat × Nat :=
  if 6 * pl < (q.2 : ℚ) then (0, st.1)
  else if (q.1 : ℚ) < 2 * pl ∧ 2 * pl < (q.2 : ℚ) then (st.1 <<< 1, st.2)
  else if 2 * pl < (q.1 : ℚ) ∧ (q.2 : ℚ) < 2 * pl then ((st.1 <<< 1) ||| 1, st.2)
  else st

/-- Folding `symStep` over a list of (high, gap) pairs. -/
def foldSyms (pl : ℚ) (st : Nat × Nat) (qs : List (Nat × Nat)) : Nat × Nat :=
  qs.foldl (symStep pl) st

/-- MSB-first accumulation of a bit list with the decoder's shift/or
operations. -/
def bitsFold (a : Nat) (bs : List Bool) : Nat :=
  bs.foldl (fun x b => if b then (x <<< 1) ||| 1 else x <<< 1) a

/-! ### Basic facts about the decoder step -/

theorem processTick_fall (pl tol : ℚ) (s : RxState) (t : Int)
    (hend : s.rising_edge_ts < t) (hnoise : ¬ ((((t - s.rising_edge_ts : Int)) : ℚ) / 1000 < pl * tol)) :
    processTick pl tol s ⟨t, false⟩ =
      (let s1 : RxState := { s with falling_edge_ts := t }
       let s2 :=
        if s.last_pulse_end_ts ≠ -1 then
          if (((s.rising_edge_ts - s.last_pulse_end_ts : Int)) : ℚ) / 1000 > 6 * pl then
            { s1 with rx_code := s.code,
                      rx_code_timestamp := some s.last_pulse_end_ts,
                      code := 0 }
          else
            let s3 :=
              if (((s.last_pulse_end_ts - s.last_pulse_start_ts : Int)) : ℚ) / 1000 < 2 * pl ∧
                 (((s.rising_edge_ts - s.last_pulse_end_ts : Int)) : ℚ) / 1000 > 2 * pl then
                { s1 with code := s.code <<< 1 }
              else s1
            if (((s.last_pulse_end_ts - s.last_pulse_start_ts : Int)) : ℚ) / 1000 > 2 * pl ∧
               (((s.rising_edge_ts - s.last_pulse_end_ts : Int)) : ℚ) / 1000 < 2 * pl then
              { s3 with code := (s3.code <<< 1) ||| 1 }
            else s3
        else s1
       { s2 with last_pulse_start_ts := s.rising_edge_ts, last_pulse_end_ts := t }) := by
  simp only [processTick, Bool.false_eq_true, if_false, gt_iff_lt, hend, if_true, hnoise]

/-- C5: a completed high pulse strictly shorter than `pulse_unit *
tolerance_fraction` (in microseconds) is discarded as noise: the edge markers
are reset to the sentinel and the accumulated code, the previous-pulse
start/end markers, `rx_code` and `rx_code_timestamp` are all unchanged. -/
theorem noise_pulse_discarded (pl tol : ℚ) (s : RxState) (t : Int)
    (hend : s.rising_edge_ts < t)
    (hnoise : (((t - s.rising_edge_ts : Int)) : ℚ) / 1000 < pl * tol) :
    processTick pl tol s ⟨t, false⟩ =
      { s with rising_edge_ts := -1, falling_edge_ts := -1 } := by
  simp only [processTick, Bool.false_eq_true, if_false, gt_iff_lt, hend, if_true, hnoise]

/-- Witness for `noise_pulse_discarded`: a 2000 µs pulse under
`rx_pulselength = 3500`, `rx_tolerance = 0.8` (threshold 2800 µs) is dropped
with no state change. -/
theorem noise_pulse_discarded_witness :
    processTick 3500 (4/5) ⟨14000000, 0, 0, 10500000, 1, 0, none⟩ ⟨16000000, false⟩ =
      ⟨-1, -1, 0, 10500000, 1, 0, none⟩ := by
  have h := noise_pulse_discarded 3500 (4/5) ⟨14000000, 0, 0, 10500000, 1, 0, none⟩
    16000000 (by norm_num) (by norm_num)
  exact h

/-- C3: a completed non-noise pulse whose gap from the previous pulse's end
is strictly greater than `6 * pulse_unit` (with a previous pulse recorded)
commits the accumulated code into `rx_code` (with `rx_code_timestamp` set to
the previous pulse's end), resets the accumulated code to 0, and records the
current pulse as the new previous pulse. -/
theorem sync_gap_commits (pl tol : ℚ) (s : RxState) (t : Int)
    (hend : s.rising_edge_ts < t)
    (hnoise : ¬ ((((t - s.rising_edge_ts : Int)) : ℚ) / 1000 < pl * tol))
    (hprev : s.last_pulse_end_ts ≠ -1)
    (hsync : (((s.rising_edge_ts - s.last_pulse_end_ts : Int)) : ℚ) / 1000 > 6 * pl) :
    processTick pl tol s ⟨t, false⟩ =
      { s with falling_edge_ts := t,
               code := 0,
               rx_code := s.code,
               rx_code_timestamp := some s.last_pulse_end_ts,
               last_pulse_start_ts := s.rising_edge_ts,
               last_pulse_end_ts := t } := by
  rw [processTick_fall pl tol s t hend hnoise]
  simp only [hprev, hsync, gt_iff_lt, if_true, ite_true, ne_eq, not_false_eq_true]

/-- Witness for `sync_gap_commits`: with `rx_pulselength = 3500`, a 26500 µs
gap commits the accumulated code 5 into `rx_code`. -/
theorem sync_gap_commits_witness :
    processTick 3500 (4/5) ⟨30000000, 0, 0, 3500000, 5, 0, none⟩ ⟨33500000, false⟩ =
      ⟨30000000, 33500000, 30000000, 33500000, 0, 5, some 3500000⟩ := by
  have h := sync_gap_commits 3500 (4/5) ⟨30000000, 0, 0, 3500000, 5, 0, none⟩
    33500000 (by norm_num) (by norm_num) (by decide) (by norm_num)
  exact h

/-- C4: on a completed non-noise pulse with a previous pulse recorded and a
gap not classified as sync, the accumulated code is updated by strict
comparisons of the previous pulse's high duration and the gap against
`2 * pulse_unit`: short-high/long-low shifts in a 0, long-high/short-low
shifts in a 1, and in every other combination (a duration equal to the
threshold, or both conditions false) the accumulated code is unchanged. -/
theorem data_gap_bit (pl tol : ℚ) (s : RxState) (t : Int)
    (hend : s.rising_edge_ts < t)
    (hnoise : ¬ ((((t - s.rising_edge_ts : Int)) : ℚ) / 1000 < pl * tol))
    (hprev : s.last_pulse_end_ts ≠ -1)
    (hdata : ¬ ((((s.rising_edge_ts - s.last_pulse_end_ts : Int)) : ℚ) / 1000 > 6 * pl)) :
    processTick pl tol s ⟨t, false⟩ =
      { s with falling_edge_ts := t,
               code :=
                 if (((s.last_pulse_end_ts - s.last_pulse_start_ts : Int)) : ℚ) / 1000 < 2 * pl ∧
                    (((s.rising_edge_ts - s.last_pulse_end_ts : Int)) : ℚ) / 1000 > 2 * pl then
                   s.code <<< 1
                 else if (((s.last_pulse_end_ts - s.last_pulse_start_ts : Int)) : ℚ) / 1000 > 2 * pl ∧
                    (((s.rising_edge_ts - s.last_pulse_end_ts : Int)) : ℚ) / 1000 < 2 * pl then
                   (s.code <<< 1) ||| 1
                 else s.code,
               last_pulse_start_ts := s.rising_edge_ts,
               last_pulse_end_ts := t } := by
  rw [processTick_fall pl tol s t hend hnoise]
  simp only [hprev, hdata, gt_iff_lt, if_true, if_false, ite_true, ite_false, ne_eq,
    not_false_eq_true]
  split_ifs with h1 h2 <;> try rfl
  exact absurd h2.1 (not_lt.mpr (le_of_lt h1.1))

/-- Witness for `data_gap_bit`: a 10500 µs high followed by a 3500 µs gap
under `rx_pulselength = 3500` (threshold 7000 µs) shifts in a 1:
the accumulated code 1 becomes 3. -/
theorem data_gap_bit_witness :
    processTick 3500 (4/5) ⟨14000000, 0, 0, 10500000, 1, 0, none⟩ ⟨17500000, false⟩ =
      ⟨14000000, 17500000, 14000000, 17500000, 3, 0, none⟩ := by
  have h := data_gap_bit 3500 (4/5) ⟨14000000, 0, 0, 10500000, 1, 0, none⟩
    17500000 (by norm_num) (by norm_num) (by decide) (by norm_num)
  norm_num at h
  exact h

/-- C10: if the decoder's very first processed event is a falling edge at
timestamp `t ≥ 0`, the sentinel `-1` in the rising-edge marker makes
`falling > rising` true, so the event is treated as a completed high pulse of
duration `t - (-1)`; when that duration is above the noise threshold the
pulse is recorded as the previous pulse with start time `-1` and end `t`. -/
theorem first_falling_edge_bootstrap (pl tol : ℚ) (t : Int) (ht : 0 ≤ t)
    (hnn : ¬ ((((t - (-1) : Int)) : ℚ) / 1000 < pl * tol)) :
    processTick pl tol initRxState ⟨t, false⟩ = ⟨-1, t, -1, t, 0, 0, none⟩ := by
  have hend : (initRxState.rising_edge_ts : Int) < t := by
    simp only [initRxState]
    omega
  rw [processTick_fall pl tol initRxState t hend (by simpa [initRxState] using hnn)]
  simp [initRxState]

/-- Witness for `first_falling_edge_bootstrap`: a lone falling edge at
t = 10^10 ns bootstraps the previous-pulse markers to `(-1, 10^10)`. -/
theorem first_falling_edge_bootstrap_witness :
    processTick 3500 (4/5) initRxState ⟨10000000000, false⟩ =
      ⟨-1, 10000000000, -1, 10000000000, 0, 0, none⟩ := by
  have h := first_falling_edge_bootstrap 3500 (4/5) 10000000000 (by norm_num)
    (by norm_num)
  exact h

/-- C9: `do_command` treats a code of 0 (and an absent code) as missing: it
returns the failure mapping with error "code is required" and transmits
nothing; exactly the truthy code values are transmitted. -/
theorem do_command_zero_code_rejected :
    do_command_model (some 0) = ⟨false, some "code is required", false⟩ ∧
    do_command_model none = ⟨false, some "code is required", false⟩ ∧
    ∀ c : Option Int, (do_command_model c).transmitted = codeTruthy c := by
  refine ⟨rfl, rfl, fun c => ?_⟩
  by_cases h : codeTruthy c = true <;> simp [do_command_model, h]

/-- C8 counterexample: cancelling `transmit_waveform` right after the
pin-high write (cancellation point 1 of the action trace, e.g. during the
high hold) leaves the output pin high, refuting "cancellation always leaves
the pin low". -/
theorem cancel_mid_high_leaves_pin_high :
    pinAfter ((transmit_waveform_actions 1 31 3500).take 1) = true ∧
    pinAfter ((transmit_waveform_actions 1 31 3500).take 2) = true := by
  constructor <;> rfl

/-- C8 amended: cancelling `transmit_waveform` at point `k` of its action
trace leaves the pin high exactly when the cancellation falls between the
pin-high write and the pin-low write (k = 1 or 2, i.e. during the high
hold); there is no cleanup handler driving the pin low. -/
theorem cancel_pin_state (hp lp pl k : Nat) :
    pinAfter ((transmit_waveform_actions hp lp pl).take k) =
      decide (k = 1 ∨ k = 2) := by
  match k with
  | 0 => rfl
  | 1 => rfl
  | 2 => rfl
  | 3 => rfl
  | (n+4) =>
    have h : decide (n + 4 = 1 ∨ n + 4 = 2) = false := by
      simp only [decide_eq_false_iff_not]
      omega
    rw [h, List.take_of_length_le (by simp [transmit_waveform_actions])]
    rfl

/-- C7 counterexample: subscripting the protocol table with id 0 does not
fail at all — it succeeds and returns the reserved `None` entry (a later
attribute access would fail, but the lookup itself raises nothing, and no
`InvalidProtocol` error exists in the code). -/
theorem protocol_zero_lookup_returns_sentinel :
    pyIndex RX_PROTOCOLS 0 = some none ∧ pyIndex TX_PROTOCOLS 0 = some none := by
  constructor <;> rfl

/-- C7 amended: in both protocol tables, ids 1..6 return the corresponding
profile; id 0 succeeds with the sentinel `None` entry; ids ≥ 7 (and ≤ -8)
raise `IndexError` (modelled `none`); a negative id such as -1 aliases from
the end, Python-style. -/
theorem protocol_lookup_behavior :
    (∀ i : Int, 1 ≤ i → i ≤ 6 →
      (∃ p, pyIndex RX_PROTOCOLS i = some (some p)) ∧
      (∃ p, pyIndex TX_PROTOCOLS i = some (some p))) ∧
    (∀ i : Int, 7 ≤ i → pyIndex RX_PROTOCOLS i = none ∧ pyIndex TX_PROTOCOLS i = none) ∧
    (∀ i : Int, i ≤ -8 → pyIndex RX_PROTOCOLS i = none ∧ pyIndex TX_PROTOCOLS i = none) ∧
    pyIndex RX_PROTOCOLS 0 = some none ∧
    pyIndex RX_PROTOCOLS (-1) = some (some ⟨200, 1, 10, 1, 5, 1, 1⟩) := by
  refine ⟨fun i h1 h6 => ?_, fun i h7 => ?_, fun i h8 => ?_, rfl, rfl⟩
  · interval_cases i <;> exact ⟨⟨_, rfl⟩, ⟨_, rfl⟩⟩
  · have hpos : 0 ≤ i := by omega
    have hlen : ∀ l : List (Option Protocol), l.length = 7 → l[i.toNat]? = none := by
      intro l hl
      apply List.getElem?_eq_none
      omega
    constructor <;>
      · rw [pyIndex, if_pos hpos, hlen]
        rfl
  · have hneg : ¬ (0 ≤ i) := by omega
    constructor <;>
      · rw [pyIndex, if_neg hneg, if_neg]
        simp only [RX_PROTOCOLS, TX_PROTOCOLS, List.length_cons, List.length_nil]
        omega

/-- Witness for `protocol_lookup_behavior`: id 3 resolves in both tables and
id 9 raises `IndexError` in both. -/
theorem protocol_lookup_behavior_witness :
    (∃ p, pyIndex RX_PROTOCOLS 3 = some (some p)) ∧
    pyIndex RX_PROTOCOLS 9 = none := by
  exact ⟨(protocol_lookup_behavior.1 3 (by norm_num) (by norm_num)).1,
         (protocol_lookup_behavior.2.1 9 (by norm_num)).1⟩

/-- C2 counterexample: a code that does not fit in `tx_length = 24` bits is
transmitted anyway — no error is raised, pulses are emitted, and the emitted
waveform is that of the code's most significant 24 bits: `2^24` transmits
exactly the same pulse sequence as `2^23`. -/
theorem transmit_overflow_truncates_silently :
    transmit_code_pairs ⟨3500, 1, 31, 1, 3, 3, 1⟩ (2 ^ 24) 24 10 =
      transmit_code_pairs ⟨3500, 1, 31, 1, 3, 3, 1⟩ (2 ^ 23) 24 10 ∧
    transmit_code_pairs ⟨3500, 1, 31, 1, 3, 3, 1⟩ (2 ^ 24) 24 10 ≠ [] := by
  constructor
  · rfl
  · decide

/-- C2 amended: `transmit_code` never validates the code: for every code and
any positive repeat count it emits a nonempty pulse sequence (at least the
sync pair), silently truncating a code wider than `tx_length` bits to its
most significant `tx_length` formatted digits. -/
theorem transmit_code_always_emits (p : Protocol) (c txLength txRepeat : Nat)
    (hr : 1 ≤ txRepeat) :
    transmit_code_pairs p c txLength txRepeat ≠ [] := by
  obtain ⟨k, rfl⟩ := Nat.exists_eq_add_of_le hr
  simp only [transmit_code_pairs, transmit_binary_pairs]
  rw [show 1 + k = k + 1 by omega, List.replicate_succ, List.flatten_cons]
  simp [List.append_eq_nil]

/-- Witness for `transmit_code_always_emits`: code 3 with the transmitter's
defaults (protocol 1, 24 bits, 10 repeats) emits pulses. -/
theorem transmit_code_always_emits_witness :
    transmit_code_pairs ⟨3500, 1, 31, 1, 3, 3, 1⟩ 3 24 10 ≠ [] :=
  transmit_code_always_emits ⟨3500, 1, 31, 1, 3, 3, 1⟩ 3 24 10 (by norm_num)

/-- C6 counterexample: with profile `(350, sync (1,31), zero (1,3), one (3,1))`,
encoding code 2 over 2 bits with 1 repeat produces exactly
`[(1050,350), (350,1050), (350,10850)]`, but decoding that exact timeline
does NOT yield 2: no pulse follows the sync gap, so the commit never fires
and `rx_code` stays 0 (the 2 sits uncommitted in the in-progress code). -/
theorem concrete_scenario_rx_code_not_committed :
    transmit_code_pairs ⟨350, 1, 31, 1, 3, 3, 1⟩ 2 2 1 =
      [(1050, 350), (350, 1050), (350, 10850)] ∧
    (processTicks 350 (4/5) initRxState
      (pairsToTicks 0 [(1050, 350), (350, 1050), (350, 10850)])).rx_code ≠ 2 := by
  constructor
  · rfl
  · norm_num [processTicks, processTick, pairsToTicks, initRxState]

/-- C6 amended: the encoder side of the concrete scenario is exact, and the
decoder accumulates 2 in the in-progress code while `rx_code` remains 0; the
commit of 2 into `rx_code` happens only once a further pulse completes after
the sync gap (here a trailing 350 µs pulse). -/
theorem concrete_scenario_amended :
    transmit_code_pairs ⟨350, 1, 31, 1, 3, 3, 1⟩ 2 2 1 =
      [(1050, 350), (350, 1050), (350, 10850)] ∧
    (processTicks 350 (4/5) initRxState
      (pairsToTicks 0 [(1050, 350), (350, 1050), (350, 10850)])).code = 2 ∧
    (processTicks 350 (4/5) initRxState
      (pairsToTicks 0 [(1050, 350), (350, 1050), (350, 10850)])).rx_code = 0 ∧
    (processTicks 350 (4/5) initRxState
      (pairsToTicks 0 [(1050, 350), (350, 1050), (350, 10850), (350, 350)])).rx_code = 2 := by
  refine ⟨rfl, ?_, ?_, ?_⟩ <;>
    norm_num [processTicks, processTick, pairsToTicks, initRxState, Nat.shiftLeft_eq]

/-! ### The decoder on a clean pulse train -/

theorem processPair_step (pl tol : ℚ) (hpl : 0 < pl) (htol : tol ≤ 1)
    (sS : Int) (hp lp h : Nat) (acc rx : Nat) (ts : Option Int)
    (hSS : 0 ≤ sS) (hlp : 1 ≤ lp) (hh : pl ≤ (h : ℚ)) :
    processTick pl tol
        (processTick pl tol (trainState sS (sS + 1000 * (hp : Int)) acc rx ts)
          ⟨sS + 1000 * (hp : Int) + 1000 * (lp : Int), true⟩)
        ⟨sS + 1000 * (hp : Int) + 1000 * (lp : Int) + 1000 * (h : Int), false⟩ =
      trainState (sS + 1000 * (hp : Int) + 1000 * (lp : Int))
        (sS + 1000 * (hp : Int) + 1000 * (lp : Int) + 1000 * (h : Int))
        (symStep pl (acc, rx) (hp, lp)).1 (symStep pl (acc, rx) (hp, lp)).2
        (if 6 * pl < (lp : ℚ) then some (sS + 1000 * (hp : Int)) else ts) := by
  have hh1 : 1 ≤ h := by
    have h0 : (0 : ℚ) < (h : ℚ) := lt_of_lt_of_le hpl hh
    exact_mod_cast Nat.one_le_iff_ne_zero.mpr (by exact_mod_cast h0.ne')
  have hlpI : (1 : Int) ≤ (lp : Int) := by exact_mod_cast hlp
  have hhI : (1 : Int) ≤ (h : Int) := by exact_mod_cast hh1
  have hhpI : (0 : Int) ≤ (hp : Int) := Int.natCast_nonneg hp
  have hrise :
      processTick pl tol (trainState sS (sS + 1000 * (hp : Int)) acc rx ts)
          ⟨sS + 1000 * (hp : Int) + 1000 * (lp : Int), true⟩ =
        ⟨sS + 1000 * (hp : Int) + 1000 * (lp : Int), sS + 1000 * (hp : Int),
          sS, sS + 1000 * (hp : Int), acc, rx, ts⟩ := by
    have hc : ¬ (sS + 1000 * (hp : Int) >
        sS + 1000 * (hp : Int) + 1000 * (lp : Int)) := by omega
    simp [processTick, trainState, hc]
  rw [hrise]
  have hend : (⟨sS + 1000 * (hp : Int) + 1000 * (lp : Int), sS + 1000 * (hp : Int),
      sS, sS + 1000 * (hp : Int), acc, rx, ts⟩ : RxState).rising_edge_ts <
      sS + 1000 * (hp : Int) + 1000 * (lp : Int) + 1000 * (h : Int) := by
    simp only
    omega
  have hnoise : ¬ ((((sS + 1000 * (hp : Int) + 1000 * (lp : Int) + 1000 * (h : Int) -
      (⟨sS + 1000 * (hp : Int) + 1000 * (lp : Int), sS + 1000 * (hp : Int),
        sS, sS + 1000 * (hp : Int), acc, rx, ts⟩ : RxState).rising_edge_ts : Int)) : ℚ) / 1000 <
      pl * tol) := by
    simp only
    have e0 : sS + 1000 * (hp : Int) + 1000 * (lp : Int) + 1000 * (h : Int) -
        (sS + 1000 * (hp : Int) + 1000 * (lp : Int)) = 1000 * (h : Int) := by ring
    rw [e0]
    have e1 : (((1000 * (h : Int)) : Int) : ℚ) / 1000 = (h : ℚ) := by
      push_cast
      rw [mul_div_cancel_left₀]
      norm_num
    rw [e1]
    have h2 : pl * tol ≤ pl := by
      calc pl * tol ≤ pl * 1 := by
            exact mul_le_mul_of_nonneg_left htol (le_of_lt hpl)
        _ = pl := mul_one pl
    exact not_lt.mpr (le_trans h2 hh)
  rw [processTick_fall pl tol _ _ hend hnoise]
  have hne : (sS + 1000 * (hp : Int)) ≠ -1 := by omega
  have egap : (((sS + 1000 * (hp : Int) + 1000 * (lp : Int)) -
      (sS + 1000 * (hp : Int)) : Int) : ℚ) / 1000 = (lp : ℚ) := by
    have e0 : (sS + 1000 * (hp : Int) + 1000 * (lp : Int)) -
        (sS + 1000 * (hp : Int)) = 1000 * (lp : Int) := by ring
    rw [e0]
    push_cast
    rw [mul_div_cancel_left₀]
    norm_num
  have edur : (((sS + 1000 * (hp : Int)) - sS : Int) : ℚ) / 1000 = (hp : ℚ) := by
    have e0 : (sS + 1000 * (hp : Int)) - sS = 1000 * (hp : Int) := by ring
    rw [e0]
    push_cast
    rw [mul_div_cancel_left₀]
    norm_num
  simp only [ne_eq, hne, not_false_eq_true, if_true, ite_true, egap, edur, gt_iff_lt,
    symStep, trainState]
  split_ifs with h1 h2 h3 <;> try rfl
  exact absurd h3.1 (not_lt.mpr (le_of_lt h2.1))

theorem processPair_bootstrap (pl tol : ℚ) (hpl : 0 < pl) (htol : tol ≤ 1)
    (h : Nat) (hh : pl ≤ (h : ℚ)) :
    processTick pl tol (processTick pl tol initRxState ⟨0, true⟩)
        ⟨0 + 1000 * (h : Int), false⟩ =
      trainState 0 (0 + 1000 * (h : Int)) 0 0 none := by
  have hh1 : 1 ≤ h := by
    have h0 : (0 : ℚ) < (h : ℚ) := lt_of_lt_of_le hpl hh
    exact_mod_cast Nat.one_le_iff_ne_zero.mpr (by exact_mod_cast h0.ne')
  have hhI : (1 : Int) ≤ (h : Int) := by exact_mod_cast hh1
  have hrise : processTick pl tol initRxState ⟨0, true⟩ =
      ⟨0, -1, -1, -1, 0, 0, none⟩ := by
    have hc : ¬ ((-1 : Int) > 0) := by omega
    simp [processTick, initRxState, hc]
  rw [hrise]
  have hend : (⟨0, -1, -1, -1, 0, 0, none⟩ : RxState).rising_edge_ts <
      0 + 1000 * (h : Int) := by
    simp only
    omega
  have hnoise : ¬ ((((0 + 1000 * (h : Int) -
      (⟨0, -1, -1, -1, 0, 0, none⟩ : RxState).rising_edge_ts : Int)) : ℚ) / 1000 <
      pl * tol) := by
    simp only
    have e0 : (0 + 1000 * (h : Int) - 0) = 1000 * (h : Int) := by ring
    rw [e0]
    have e1 : (((1000 * (h : Int)) : Int) : ℚ) / 1000 = (h : ℚ) := by
      push_cast
      rw [mul_div_cancel_left₀]
      norm_num
    rw [e1]
    have h2 : pl * tol ≤ pl := by
      calc pl * tol ≤ pl * 1 := mul_le_mul_of_nonneg_left htol (le_of_lt hpl)
        _ = pl := mul_one pl
    exact not_lt.mpr (le_trans h2 hh)
  rw [processTick_fall pl tol _ _ hend hnoise]
  simp [trainState]

theorem train_decode (pl tol : ℚ) (hpl : 0 < pl) (htol : tol ≤ 1) :
    ∀ (pairs : List (Nat × Nat)) (sS : Int) (hp lp : Nat) (acc rx : Nat)
      (ts : Option Int), 0 ≤ sS → 1 ≤ lp →
      (∀ q ∈ pairs, pl ≤ (q.1 : ℚ) ∧ 1 ≤ q.2) →
      ∃ sS' sE' ts',
        processTicks pl tol (trainState sS (sS + 1000 * (hp : Int)) acc rx ts)
          (pairsToTicks (sS + 1000 * (hp : Int) + 1000 * (lp : Int)) pairs) =
        trainState sS' sE'
          (foldSyms pl (acc, rx) (((hp, lp) :: pairs).dropLast)).1
          (foldSyms pl (acc, rx) (((hp, lp) :: pairs).dropLast)).2 ts' := by
  intro pairs
  induction pairs with
  | nil =>
    intro sS hp lp acc rx ts hSS hlp hq
    exact ⟨sS, sS + 1000 * (hp : Int), ts,
      by simp [processTicks, pairsToTicks, foldSyms]⟩
  | cons q rest ih =>
    obtain ⟨h, l⟩ := q
    intro sS hp lp acc rx ts hSS hlp hq
    have hqh : pl ≤ ((h : Nat) : ℚ) := (hq (h, l) (by simp)).1
    have hql : 1 ≤ l := (hq (h, l) (by simp)).2
    have hrest : ∀ q ∈ rest, pl ≤ (q.1 : ℚ) ∧ 1 ≤ q.2 := by
      intro q hq'
      exact hq q (by simp [hq'])
    have hT0 : 0 ≤ sS + 1000 * (hp : Int) + 1000 * (lp : Int) := by
      have := Int.natCast_nonneg hp
      have := Int.natCast_nonneg lp
      omega
    obtain ⟨sS', sE', ts', heq⟩ :=
      ih (sS + 1000 * (hp : Int) + 1000 * (lp : Int)) h l
        (symStep pl (acc, rx) (hp, lp)).1 (symStep pl (acc, rx) (hp, lp)).2
        (if 6 * pl < (lp : ℚ) then some (sS + 1000 * (hp : Int)) else ts)
        hT0 hql hrest
    refine ⟨sS', sE', ts', ?_⟩
    have hsplit : pairsToTicks (sS + 1000 * (hp : Int) + 1000 * (lp : Int))
        ((h, l) :: rest) =
        ⟨sS + 1000 * (hp : Int) + 1000 * (lp : Int), true⟩ ::
        ⟨sS + 1000 * (hp : Int) + 1000 * (lp : Int) + 1000 * (h : Int), false⟩ ::
        pairsToTicks (sS + 1000 * (hp : Int) + 1000 * (lp : Int) + 1000 * (h : Int) +
          1000 * (l : Int)) rest := rfl
    rw [hsplit]
    show processTicks pl tol
        (processTick pl tol
          (processTick pl tol (trainState sS (sS + 1000 * (hp : Int)) acc rx ts)
            ⟨sS + 1000 * (hp : Int) + 1000 * (lp : Int), true⟩)
          ⟨sS + 1000 * (hp : Int) + 1000 * (lp : Int) + 1000 * (h : Int), false⟩)
        (pairsToTicks (sS + 1000 * (hp : Int) + 1000 * (lp : Int) + 1000 * (h : Int) +
          1000 * (l : Int)) rest) = _
    rw [processPair_step pl tol hpl htol sS hp lp h acc rx ts hSS hlp hqh]
    rw [heq]
    have hdrop : (((hp, lp) :: (h, l) :: rest).dropLast) =
        (hp, lp) :: (((h, l) :: rest).dropLast) := rfl
    rw [hdrop]
    have hfold : foldSyms pl (acc, rx) ((hp, lp) :: (((h, l) :: rest).dropLast)) =
        foldSyms pl ((symStep pl (acc, rx) (hp, lp)).1,
                     (symStep pl (acc, rx) (hp, lp)).2)
          (((h, l) :: rest).dropLast) := rfl
    rw [hfold]

theorem clean_train_decode (pl tol : ℚ) (hpl : 0 < pl) (htol : tol ≤ 1)
    (h0 l0 : Nat) (rest : List (Nat × Nat))
    (hq : ∀ q ∈ (h0, l0) :: rest, pl ≤ (q.1 : ℚ) ∧ 1 ≤ q.2) :
    ∃ sS' sE' ts',
      processTicks pl tol initRxState (pairsToTicks 0 ((h0, l0) :: rest)) =
      trainState sS' sE'
        (foldSyms pl (0, 0) (((h0, l0) :: rest).dropLast)).1
        (foldSyms pl (0, 0) (((h0, l0) :: rest).dropLast)).2 ts' := by
  have hqh : pl ≤ ((h0 : Nat) : ℚ) := (hq (h0, l0) (by simp)).1
  have hql : 1 ≤ l0 := (hq (h0, l0) (by simp)).2
  have hrest : ∀ q ∈ rest, pl ≤ (q.1 : ℚ) ∧ 1 ≤ q.2 := by
    intro q hq'
    exact hq q (by simp [hq'])
  have hsplit : pairsToTicks 0 ((h0, l0) :: rest) =
      ⟨0, true⟩ :: ⟨0 + 1000 * (h0 : Int), false⟩ ::
      pairsToTicks (0 + 1000 * (h0 : Int) + 1000 * (l0 : Int)) rest := rfl
  obtain ⟨sS', sE', ts', heq⟩ :=
    train_decode pl tol hpl htol rest 0 h0 l0 0 0 none (by omega) hql hrest
  refine ⟨sS', sE', ts', ?_⟩
  rw [hsplit]
  show processTicks pl tol
      (processTick pl tol (processTick pl tol initRxState ⟨0, true⟩)
        ⟨0 + 1000 * (h0 : Int), false⟩)
      (pairsToTicks (0 + 1000 * (h0 : Int) + 1000 * (l0 : Int)) rest) = _
  rw [processPair_bootstrap pl tol hpl htol h0 hqh]
  exact heq

/-! ### Correctness of the binary formatting -/

theorem natBitsAux_fuel : ∀ (f1 c f2 : Nat), c ≤ f1 → c ≤ f2 →
    natBitsAux f1 c = natBitsAux f2 c := by
  intro f1
  induction f1 with
  | zero =>
    intro c f2 h1 h2
    have hc : c = 0 := by omega
    subst hc
    cases f2 <;> rfl
  | succ m1 ihm =>
    intro c f2 h1 h2
    match c, f2 with
    | 0, 0 => rfl
    | 0, k + 1 => rfl
    | c + 1, 0 => exact absurd h2 (by omega)
    | c + 1, m2 + 1 =>
      show natBitsAux m1 ((c + 1) / 2) ++ _ = natBitsAux m2 ((c + 1) / 2) ++ _
      rw [ihm ((c + 1) / 2) m2 (by omega) (by omega)]

theorem natBits_eq (c : Nat) (hc : c ≠ 0) :
    natBits c = natBits (c / 2) ++ [decide (c % 2 = 1)] := by
  obtain ⟨k, rfl⟩ : ∃ k, c = k + 1 := ⟨c - 1, by omega⟩
  show natBitsAux k ((k + 1) / 2) ++ _ = natBitsAux ((k + 1) / 2) ((k + 1) / 2) ++ _
  rw [natBitsAux_fuel k ((k + 1) / 2) ((k + 1) / 2) (by omega) (le_refl _)]

theorem natBits_length_le : ∀ (n c : Nat), c < 2 ^ n → (natBits c).length ≤ n := by
  intro n
  induction n with
  | zero =>
    intro c hc
    have h0 : c = 0 := by
      have : (2 : Nat) ^ 0 = 1 := by norm_num
      omega
    subst h0
    simp [natBits, natBitsAux]
  | succ m ihm =>
    intro c hc
    by_cases h0 : c = 0
    · subst h0
      simp [natBits, natBitsAux]
    · rw [natBits_eq c h0, List.length_append]
      have hdiv : c / 2 < 2 ^ m := by
        rw [Nat.div_lt_iff_lt_mul (by norm_num : 0 < 2)]
        calc c < 2 ^ (m + 1) := hc
          _ = 2 ^ m * 2 := by rw [pow_succ]
      have := ihm (c / 2) hdiv
      simp only [List.length_cons, List.length_nil]
      omega

theorem two_mul_lor_one (m : Nat) : 2 * m ||| 1 = 2 * m + 1 := by
  apply Nat.eq_of_testBit_eq
  intro i
  cases i with
  | zero =>
    simp [Nat.testBit_or, Nat.testBit_zero, Nat.mul_add_mod, Nat.add_mod]
  | succ j =>
    rw [Nat.testBit_or]
    rw [Nat.testBit_succ, Nat.testBit_succ, Nat.testBit_succ]
    have e1 : 2 * m / 2 = m := by omega
    have e2 : (2 * m + 1) / 2 = m := by omega
    have e3 : (1 : Nat) / 2 = 0 := by omega
    rw [e1, e2, e3]
    simp

theorem shiftLeft_one_eq (x : Nat) : x <<< 1 = 2 * x := by
  rw [Nat.shiftLeft_eq]
  ring

theorem shiftLeft_one_lor_one (x : Nat) : (x <<< 1) ||| 1 = 2 * x + 1 := by
  rw [Nat.shiftLeft_eq, pow_one, Nat.mul_comm, two_mul_lor_one]

theorem bitsFold_append (a : Nat) (l1 l2 : List Bool) :
    bitsFold a (l1 ++ l2) = bitsFold (bitsFold a l1) l2 := by
  simp [bitsFold, List.foldl_append]

theorem bitsFold_natBits : ∀ c : Nat, bitsFold 0 (natBits c) = c := by
  intro c
  induction c using Nat.strong_induction_on with
  | _ c ih =>
    by_cases h0 : c = 0
    · subst h0
      rfl
    · rw [natBits_eq c h0, bitsFold_append, ih (c / 2) (Nat.div_lt_self (by omega) one_lt_two)]
      by_cases hodd : c % 2 = 1
      · simp [bitsFold, hodd, shiftLeft_one_lor_one]
        omega
      · have heven : c % 2 = 0 := by omega
        simp [bitsFold, heven, shiftLeft_one_eq]
        omega

theorem bitsFold_replicate_false (m : Nat) :
    bitsFold 0 (List.replicate m false) = 0 := by
  induction m with
  | zero => rfl
  | succ k ih =>
    rw [List.replicate_succ]
    simpa [bitsFold, shiftLeft_one_eq] using ih

theorem bitsFold_pyBits (c : Nat) : bitsFold 0 (pyBits c) = c := by
  by_cases h0 : c = 0
  · subst h0
    rfl
  · rw [pyBits, if_neg h0]
    exact bitsFold_natBits c

theorem pyBits_length_le (c n : Nat) (hc : c < 2 ^ n) (hn : 1 ≤ n) :
    (pyBits c).length ≤ n := by
  by_cases h0 : c = 0
  · subst h0
    simpa [pyBits] using hn
  · rw [pyBits, if_neg h0]
    exact natBits_length_le n c hc

theorem bitsFold_pyFormat (c n : Nat) (hc : c < 2 ^ n) :
    bitsFold 0 ((pyFormatBin c n).take n) = c := by
  rcases Nat.eq_zero_or_pos n with hn | hn
  · subst hn
    have h0 : c = 0 := by
      have : (2 : Nat) ^ 0 = 1 := by norm_num
      omega
    subst h0
    rfl
  · have hle : (pyFormatBin c n).length ≤ n := by
      have hl := pyBits_length_le c n hc hn
      simp only [pyFormatBin, List.length_append, List.length_replicate]
      omega
    rw [List.take_of_length_le hle, pyFormatBin, bitsFold_append,
      bitsFold_replicate_false, bitsFold_pyBits]

/-! ### Symbol-level behaviour of the protocol-1 pulse shapes -/

theorem foldSyms_append (pl : ℚ) (st : Nat × Nat) (l1 l2 : List (Nat × Nat)) :
    foldSyms pl st (l1 ++ l2) = foldSyms pl (foldSyms pl st l1) l2 := by
  simp [foldSyms, List.foldl_append]

theorem symStep_bit (pl : Nat) (hpl : 0 < pl) (st : Nat × Nat) (b : Bool) :
    symStep (pl : ℚ) st (bitPair (proto1 pl) b) =
      (if b then (st.1 <<< 1) ||| 1 else st.1 <<< 1, st.2) := by
  have hplQ : (0 : ℚ) < (pl : ℚ) := by exact_mod_cast hpl
  cases b
  · have hb : bitPair (proto1 pl) false = (1 * pl, 3 * pl) := rfl
    rw [hb, symStep]
    rw [if_neg (by push_cast; linarith)]
    rw [if_pos ⟨by push_cast; linarith, by push_cast; linarith⟩]
    simp
  · have hb : bitPair (proto1 pl) true = (3 * pl, 1 * pl) := rfl
    rw [hb, symStep]
    rw [if_neg (by push_cast; linarith)]
    rw [if_neg (by
      intro hc
      have := hc.1
      push_cast at this
      linarith)]
    rw [if_pos ⟨by push_cast; linarith, by push_cast; linarith⟩]
    simp

theorem symStep_sync (pl : Nat) (hpl : 0 < pl) (st : Nat × Nat) :
    symStep (pl : ℚ) st (syncPair (proto1 pl)) = (0, st.1) := by
  have hplQ : (0 : ℚ) < (pl : ℚ) := by exact_mod_cast hpl
  have hb : syncPair (proto1 pl) = (1 * pl, 31 * pl) := rfl
  rw [hb, symStep]
  rw [if_pos (by push_cast; linarith)]

theorem foldSyms_bits (pl : Nat) (hpl : 0 < pl) :
    ∀ (bits : List Bool) (st : Nat × Nat),
      foldSyms (pl : ℚ) st (bits.map (bitPair (proto1 pl))) =
        (bitsFold st.1 bits, st.2) := by
  intro bits
  induction bits with
  | nil =>
    intro st
    simp [foldSyms, bitsFold]
  | cons b bs ih =>
    intro st
    rw [List.map_cons]
    show foldSyms (pl : ℚ) (symStep (pl : ℚ) st (bitPair (proto1 pl) b))
      (bs.map (bitPair (proto1 pl))) = _
    rw [symStep_bit pl hpl st b]
    exact ih _

theorem foldSyms_rep (pl : Nat) (hpl : 0 < pl) (bits : List Bool) (a r0 : Nat) :
    foldSyms (pl : ℚ) (a, r0)
      (bits.map (bitPair (proto1 pl)) ++ [syncPair (proto1 pl)]) =
      (0, bitsFold a bits) := by
  rw [foldSyms_append, foldSyms_bits pl hpl bits (a, r0)]
  show symStep (pl : ℚ) _ (syncPair (proto1 pl)) = _
  rw [symStep_sync pl hpl]

theorem foldSyms_reps (pl : Nat) (hpl : 0 < pl) (bits : List Bool) :
    ∀ (k r0 : Nat),
      foldSyms (pl : ℚ) (0, r0)
        ((List.replicate k (bits.map (bitPair (proto1 pl)) ++
          [syncPair (proto1 pl)])).flatten) =
        (0, if k = 0 then r0 else bitsFold 0 bits) := by
  intro k
  induction k with
  | zero =>
    intro r0
    simp [foldSyms]
  | succ m ih =>
    intro r0
    rw [List.replicate_succ, List.flatten_cons, foldSyms_append, foldSyms_rep pl hpl,
      ih (bitsFold 0 bits)]
    by_cases hm : m = 0 <;> simp [hm]

theorem pairs_bound (pl : Nat) (hpl : 0 < pl) (bits : List Bool) (r : Nat) :
    ∀ q ∈ (List.replicate r (bits.map (bitPair (proto1 pl)) ++
        [syncPair (proto1 pl)])).flatten,
      (pl : ℚ) ≤ (q.1 : ℚ) ∧ 1 ≤ q.2 := by
  have hpl0 : (0 : ℚ) ≤ (pl : ℚ) := by positivity
  intro q hq
  rw [List.mem_flatten] at hq
  obtain ⟨L, hL, hqL⟩ := hq
  rw [List.eq_of_mem_replicate hL, List.mem_append] at hqL
  rcases hqL with hm | hs
  · obtain ⟨b, hb, rfl⟩ := List.mem_map.mp hm
    cases b
    · refine ⟨?_, ?_⟩
      · show (pl : ℚ) ≤ ((1 * pl : Nat) : ℚ)
        push_cast
        linarith
      · show 1 ≤ 3 * pl
        omega
    · refine ⟨?_, ?_⟩
      · show (pl : ℚ) ≤ ((3 * pl : Nat) : ℚ)
        push_cast
        linarith
      · show 1 ≤ 1 * pl
        omega
  · rw [List.mem_singleton] at hs
    subst hs
    refine ⟨?_, ?_⟩
    · show (pl : ℚ) ≤ ((1 * pl : Nat) : ℚ)
      push_cast
      linarith
    · show 1 ≤ 31 * pl
      omega

/-- C1 amended: the encode→decode round trip holds for the protocol-1 pulse
shape `(sync (1,31), zero (1,3), one (3,1))` with any positive pulse unit,
matching decoder pulse length, the default tolerance 0.8, and at least two
repetitions (the code's default is 10): for every `code < 2^bit_width`,
processing the idealized edge timeline of `transmit_code` leaves
`rx_code = code` — the commit happens when the first pulse of the following
repetition completes after the sync gap. -/
theorem roundtrip_protocol1 (pl : Nat) (hpl : 0 < pl) (c n r : Nat)
    (hc : c < 2 ^ n) (hr : 2 ≤ r) :
    (processTicks (pl : ℚ) (4/5) initRxState
      (pairsToTicks 0 (transmit_code_pairs (proto1 pl) c n r))).rx_code = c := by
  have hplQ : (0 : ℚ) < (pl : ℚ) := by exact_mod_cast hpl
  have htolQ : (4/5 : ℚ) ≤ 1 := by norm_num
  obtain ⟨k, rfl⟩ : ∃ k, r = k + 2 := ⟨r - 2, by omega⟩
  have hpairs : transmit_code_pairs (proto1 pl) c n (k + 2) =
      (List.replicate (k + 2) (((pyFormatBin c n).take n).map (bitPair (proto1 pl)) ++
        [syncPair (proto1 pl)])).flatten := rfl
  have hne : (List.replicate (k + 2) (((pyFormatBin c n).take n).map (bitPair (proto1 pl)) ++
      [syncPair (proto1 pl)])).flatten ≠ [] := by
    rw [List.replicate_succ, List.flatten_cons]
    simp
  obtain ⟨q0, rest, hcons⟩ := List.exists_cons_of_ne_nil hne
  obtain ⟨qh, ql⟩ := q0
  have hq : ∀ q ∈ ((qh, ql) :: rest), (pl : ℚ) ≤ (q.1 : ℚ) ∧ 1 ≤ q.2 := by
    intro q hmem
    apply pairs_bound pl hpl ((pyFormatBin c n).take n) (k + 2)
    rw [hcons]
    exact hmem
  obtain ⟨sS', sE', ts', heq⟩ :=
    clean_train_decode (pl : ℚ) (4/5) hplQ htolQ qh ql rest hq
  rw [hpairs, hcons, heq]
  show (foldSyms (pl : ℚ) (0, 0) (((qh, ql) :: rest).dropLast)).2 = c
  rw [← hcons]
  have hdecomp : ((List.replicate (k + 2) (((pyFormatBin c n).take n).map (bitPair (proto1 pl)) ++
      [syncPair (proto1 pl)])).flatten).dropLast =
      (List.replicate (k + 1) (((pyFormatBin c n).take n).map (bitPair (proto1 pl)) ++
        [syncPair (proto1 pl)])).flatten ++
      ((pyFormatBin c n).take n).map (bitPair (proto1 pl)) := by
    rw [List.replicate_succ', List.flatten_append]
    have h2 : ([((pyFormatBin c n).take n).map (bitPair (proto1 pl)) ++
        [syncPair (proto1 pl)]] : List (List (Nat × Nat))).flatten =
        ((pyFormatBin c n).take n).map (bitPair (proto1 pl)) ++
          [syncPair (proto1 pl)] := by simp
    rw [h2, ← List.append_assoc, List.dropLast_concat]
  rw [hdecomp, foldSyms_append, foldSyms_reps pl hpl _ (k + 1) 0]
  have hk1 : ¬ (k + 1 = 0) := by omega
  rw [if_neg hk1]
  rw [foldSyms_bits pl hpl]
  show bitsFold 0 ((pyFormatBin c n).take n) = c
  exact bitsFold_pyFormat c n hc

/-- Witness for `roundtrip_protocol1`: code 2 over 2 bits, pulse unit 350,
2 repetitions, decodes back to 2. -/
theorem roundtrip_protocol1_witness :
    0 < 350 ∧ 2 < 2 ^ 2 ∧ 2 ≤ 2 ∧
    (processTicks ((350 : Nat) : ℚ) (4/5) initRxState
      (pairsToTicks 0 (transmit_code_pairs (proto1 350) 2 2 2))).rx_code = 2 := by
  exact ⟨by norm_num, by norm_num, le_refl 2,
    roundtrip_protocol1 350 (by norm_num) 2 2 2 (by norm_num) (by norm_num)⟩

/-- C1 counterexample: the round trip fails for protocol profile 2
`(650, sync (1,10), zero (1,2), one (2,1))` — its data-bit durations sit
exactly on the strict `2 * pulse_unit` threshold, so no bit is ever decoded:
encoding code 1 (1 bit, 2 repetitions) and decoding the exact timeline with
the matching pulse length yields `rx_code = 0`, not 1. -/
theorem roundtrip_fails_protocol2 :
    (processTicks (650 : ℚ) (4/5) initRxState
      (pairsToTicks 0 (transmit_code_pairs ⟨650, 1, 10, 1, 2, 2, 1⟩ 1 1 2))).rx_code = 0 ∧
    (processTicks (650 : ℚ) (4/5) initRxState
      (pairsToTicks 0 (transmit_code_pairs ⟨650, 1, 10, 1, 2, 2, 1⟩ 1 1 2))).rx_code ≠ 1 := by
  have henc : transmit_code_pairs ⟨650, 1, 10, 1, 2, 2, 1⟩ 1 1 2 =
      [(1300, 650), (650, 6500), (1300, 650), (650, 6500)] := rfl
  have h : (processTicks (650 : ℚ) (4/5) initRxState
      (pairsToTicks 0 (transmit_code_pairs ⟨650, 1, 10, 1, 2, 2, 1⟩ 1 1 2))).rx_code = 0 := by
    rw [henc]
    norm_num [processTicks, processTick, pairsToTicks, initRxState]
  exact ⟨h, by rw [h]; norm_num⟩
